import Mathlib

/-!
Verification development for a part-alternative lookup service.

The service aggregates three unreliable sources (a headless-browser scrape of a
manufacturer cross-reference page, a web search API, a generative model) into
per-part records, both for single lookups and for bounded batches with a
spreadsheet export.  This file gives a shallow embedding of the pure data flow
of that pipeline: every JavaScript string operation used by the code
(trim, includes, toLowerCase, split, the two literal regular expressions) is
reimplemented here on Lean strings, external calls are modelled by explicit
environment records carrying each call outcome, and the HTTP handlers become
total Lean functions over those environments.
-/

/-! ## JavaScript string primitives -/

/-- Whitespace in the sense of the JavaScript regular-expression class and of
the trim method, restricted to the ASCII whitespace characters that can occur
in the data handled by the service. -/
def jsSpaceChar (c : Char) : Bool :=
  c == ' ' || c == '\t' || c == '\n' || c == '\r' || c == Char.ofNat 11 || c == Char.ofNat 12

/-- Decimal digit, the regular-expression digit class. -/
def jsDigitChar (c : Char) : Bool :=
  '0' ≤ c && c ≤ '9'

/-- The character class of uppercase letters and digits. -/
def upperDigitChar (c : Char) : Bool :=
  ('A' ≤ c && c ≤ 'Z') || jsDigitChar c

/-- The character class of the part-number capture group:
uppercase letters, digits, dash, dot and slash. -/
def partNumberChar (c : Char) : Bool :=
  upperDigitChar c || c == '-' || c == '.' || c == '/'

/-- The regular-expression dot: any character except a line terminator. -/
def dotChar (c : Char) : Bool :=
  !(c == '\n' || c == '\r')

/-- The universal character class, used to pad unanchored pattern tails. -/
def anyCharClass (_ : Char) : Bool := true

/-- Does the first list occur as a leading segment of the second list. -/
def listStarts : List Char → List Char → Bool
  | [], _ => true
  | _ :: _, [] => false
  | a :: as, b :: bs => a == b && listStarts as bs

/-- Does the needle occur as a contiguous segment of the haystack. -/
def listHas (needle : List Char) : List Char → Bool
  | [] => listStarts needle []
  | c :: cs => listStarts needle (c :: cs) || listHas needle cs

/-- The JavaScript string includes method. -/
def jsIncludes (hay needle : String) : Bool :=
  listHas needle.toList hay.toList

/-- Strip leading and trailing whitespace from a character list. -/
def jsTrimList (l : List Char) : List Char :=
  ((l.dropWhile jsSpaceChar).reverse.dropWhile jsSpaceChar).reverse

/-- The JavaScript string trim method. -/
def jsTrim (s : String) : String :=
  String.mk (jsTrimList s.toList)

/-- ASCII lowercasing of one character, as toLowerCase acts on the
characters present in the scraped text. -/
def jsLowerChar (c : Char) : Char :=
  if 'A' ≤ c && c ≤ 'Z' then Char.ofNat (c.toNat + 32) else c

/-- The JavaScript toLowerCase method on ASCII data. -/
def jsToLower (s : String) : String :=
  String.mk (s.toList.map jsLowerChar)

/-- Split a character list at every occurrence of a separator character,
keeping empty pieces, exactly as the JavaScript split method does. -/
def splitCharAux (sep : Char) : List Char → List Char → List String
  | [], acc => [String.mk acc.reverse]
  | c :: cs, acc =>
      if c == sep then String.mk acc.reverse :: splitCharAux sep cs []
      else splitCharAux sep cs (c :: acc)

/-- The JavaScript split method with a one-character separator. -/
def jsSplit (s : String) (sep : Char) : List String :=
  splitCharAux sep s.toList []

/-! ## Structured-Source Extractor

Model of the scrapeTICrossReference function.  The browser session is
abstracted into a ScrapeEnv record carrying the outcome of each awaited
external step; the in-page extraction callback is a pure function over the
anchors matched by the product-link selector.  Each anchor carries its visible
text, its href, its title attribute, and the text of its ancestor elements
from the immediate parent outward, up to but excluding the document body,
which is where the ancestor walk of the code stops. -/

structure Anchor where
  text : String
  href : String
  title : String
  ancestors : List String
deriving DecidableEq, Repr

structure CrossRefAlt where
  partNumber : String
  matchType : String
  href : String
  title : String
deriving DecidableEq, Repr

/-- Match-type detection for one ancestor element, the if chain of the
extraction callback in source order: the drop-in phrases are tested first,
then exact match, same functionality, pin compatible, functional equivalent,
compatible, and replacement. -/
def inferAncestorMatch (parentText : String) : Option String :=
  let t := jsToLower parentText
  if jsIncludes t "drop-in replacement" || jsIncludes t "drop in replacement" then
    some "Drop-in replacement"
  else if jsIncludes t "exact match" then some "Exact Match"
  else if jsIncludes t "same functionality" then some "Same Functionality"
  else if jsIncludes t "pin compatible" then some "Pin Compatible"
  else if jsIncludes t "functional equivalent" then some "Functional Equivalent"
  else if jsIncludes t "compatible" then some "Compatible"
  else if jsIncludes t "replacement" then some "Replacement"
  else none

/-- The ancestor walk: starting from the default label, visit ancestors
outward and stop at the first one containing a recognized phrase. -/
def inferMatchType : List String → String
  | [] => "Cross-Reference Match"
  | t :: rest =>
      match inferAncestorMatch t with
      | some label => label
      | none => inferMatchType rest

/-- The navigation and chrome labels excluded by the anchor filter. -/
def denylistTerms : List String :=
  ["Request", "samples", "Close", "Menu", "Previous", "Language",
   "My cart", "Search", "Home", "Cross-reference"]

/-- The anchor filter of the extraction callback: the trimmed text must be
truthy, of plausible part-number length, the href must contain the product
path, and the text must contain none of the denylisted labels. -/
def anchorKeep (a : Anchor) : Bool :=
  let text := jsTrim a.text
  decide (text ≠ "") &&
  decide (3 < text.length) &&
  decide (text.length < 20) &&
  jsIncludes a.href "/product/" &&
  denylistTerms.all (fun d => !jsIncludes text d)

/-- Build one alternative from a surviving anchor, with the title attribute
falling back to the trimmed text when empty. -/
def anchorToAlt (a : Anchor) : CrossRefAlt :=
  { partNumber := jsTrim a.text
    matchType := inferMatchType a.ancestors
    href := a.href
    title := if a.title = "" then jsTrim a.text else a.title }

/-- The pure extraction over all anchors matched by the product-link
selector: filter, then map. -/
def extractAlternatives (anchors : List Anchor) : List CrossRefAlt :=
  (anchors.filter anchorKeep).map anchorToAlt

/-- Outcomes of the awaited browser steps of one scrape call.  Launch covers
puppeteer launch, new page and user-agent setup; goto is the navigation with
its 30 second bound; waitSelector is the 15 second wait for a product link;
evalAnchors is the in-page evaluation, yielding the matched anchors. -/
structure ScrapeEnv where
  launch : Except String Unit
  goto : Except String Unit
  waitSelector : Except String Unit
  evalAnchors : Except String (List Anchor)

/-- Boolean success test for an exception-carrying outcome. -/
def exceptOk {ε α : Type} : Except ε α → Bool
  | Except.ok _ => true
  | Except.error _ => false

/-- The list the scrape call hands back: the extracted alternatives when
every step succeeded, and the empty list on any failure. -/
def scrapeReturn (env : ScrapeEnv) : List CrossRefAlt :=
  match env.launch, env.goto, env.waitSelector, env.evalAnchors with
  | Except.ok _, Except.ok _, Except.ok _, Except.ok anchors => extractAlternatives anchors
  | _, _, _, _ => []

/-- The scrape function: the outer try catch maps every escaped failure to
the empty list, the inner try catch around the selector wait maps a timeout
to an early empty return, and the finally block closes the browser whenever
launch produced one.  The second component records whether the browser was
closed before returning. -/
def scrapeTICrossReference (env : ScrapeEnv) : Except String (List CrossRefAlt) × Bool :=
  match env.launch with
  | Except.error _ => (Except.ok [], false)
  | Except.ok _ =>
      let body : Except String (List CrossRefAlt) :=
        match env.goto with
        | Except.error e => Except.error e
        | Except.ok _ =>
            match env.waitSelector with
            | Except.error _ => Except.ok []
            | Except.ok _ =>
                match env.evalAnchors with
                | Except.error e => Except.error e
                | Except.ok anchors => Except.ok (extractAlternatives anchors)
      (match body with
       | Except.error _ => Except.ok []
       | Except.ok l => Except.ok l, true)

/-- The fixed vocabulary of match-type labels. -/
def matchTypeLabels : List String :=
  ["Exact Match", "Drop-in replacement", "Same Functionality", "Pin Compatible",
   "Functional Equivalent", "Compatible", "Replacement", "Cross-Reference Match"]

/-! Specification-side formulations of the match-type inference, used to
compare the code against the specified phrase priority.  A vocabulary is an
ordered list of canonical labels, each with its trigger phrases; the first
ancestor containing any phrase decides, with phrase priority given by the
vocabulary order. -/

/-- First label of the vocabulary one of whose phrases occurs in the
lowercased text. -/
def phraseLabel (vocab : List (String × List String)) (t : String) : Option String :=
  (vocab.find? (fun pr => pr.2.any (fun ph => jsIncludes (jsToLower t) ph))).map Prod.fst

/-- Walk the ancestor chain outward with a given vocabulary, defaulting when
no phrase occurs on the chain. -/
def walkMatchType (vocab : List (String × List String)) : List String → String
  | [] => "Cross-Reference Match"
  | t :: rest =>
      match phraseLabel vocab t with
      | some label => label
      | none => walkMatchType vocab rest

/-- The vocabulary in the order claimed by the specification: Exact Match
first, then Drop-in replacement and the rest. -/
def claimVocab : List (String × List String) :=
  [("Exact Match", ["exact match"]),
   ("Drop-in replacement", ["drop-in replacement", "drop in replacement"]),
   ("Same Functionality", ["same functionality"]),
   ("Pin Compatible", ["pin compatible"]),
   ("Functional Equivalent", ["functional equivalent"]),
   ("Compatible", ["compatible"]),
   ("Replacement", ["replacement"])]

/-- The match-type inference as the specification words it. -/
def claimInferMatchType : List String → String :=
  walkMatchType claimVocab

/-- The vocabulary in the order the code actually tests: Drop-in replacement
first, then Exact Match and the rest. -/
def amendedVocab : List (String × List String) :=
  [("Drop-in replacement", ["drop-in replacement", "drop in replacement"]),
   ("Exact Match", ["exact match"]),
   ("Same Functionality", ["same functionality"]),
   ("Pin Compatible", ["pin compatible"]),
   ("Functional Equivalent", ["functional equivalent"]),
   ("Compatible", ["compatible"]),
   ("Replacement", ["replacement"])]

/-- The match-type inference with the corrected phrase priority. -/
def amendedInferMatchType : List String → String :=
  walkMatchType amendedVocab

/-! ## A backtracking matcher for the two literal regular expressions

The bulk endpoint parses each model reply line against the anchored pattern
that captures part number, description and manufacturer, after a cheaper
prefix test.  Both patterns consist only of literal characters and of
quantifiers over one-character classes, so they are embedded as an item list
run by a small depth-first backtracking matcher with exactly the JavaScript
priority: a greedy quantifier prefers consuming one more class character, a
lazy quantifier prefers moving on, earlier items dominate later ones.  A
quantified item carries the characters it has consumed so far in reverse
order and emits them as its capture when the matcher moves past it.  Fuel
decreases on every step; each step either consumes an input character or
retires an item, so the input length plus the item count bounds the depth. -/

inductive RItem where
  | lit (c : Char)
  | one (p : Char → Bool)
  | many (p : Char → Bool) (acc : List Char) (minOne : Bool) (greedy : Bool) (cap : Option Nat)

/-- Append a finished capture group to the capture list. -/
def addCap (cap : Option Nat) (l : List Char) (caps : List (Nat × List Char)) :
    List (Nat × List Char) :=
  match cap with
  | some i => (i, l) :: caps
  | none => caps

/-- First-success choice between two attempts, the backtracking priority
combinator. -/
def orElseO {α : Type} : Option α → Option α → Option α
  | some r, _ => some r
  | none, y => y

/-- Depth-first backtracking matcher, anchored at both ends.  Returns the
captures of the first match in priority order, if any. -/
def reMatch : Nat → List RItem → List Char → Option (List (Nat × List Char))
  | 0, _, _ => none
  | _ + 1, [], s => if s.isEmpty then some [] else none
  | f + 1, RItem.lit c :: rest, s =>
      match s with
      | [] => none
      | x :: xs => if x == c then reMatch f rest xs else none
  | f + 1, RItem.one p :: rest, s =>
      match s with
      | [] => none
      | x :: xs => if p x then reMatch f rest xs else none
  | f + 1, RItem.many p acc minOne g cap :: rest, s =>
      if minOne then
        match s with
        | [] => none
        | x :: xs =>
            if p x then reMatch f (RItem.many p (x :: acc) false g cap :: rest) xs else none
      else if g then
        orElseO
          (match s with
           | [] => none
           | x :: xs =>
               if p x then reMatch f (RItem.many p (x :: acc) false g cap :: rest) xs else none)
          ((reMatch f rest s).map (addCap cap acc.reverse))
      else
        orElseO
          ((reMatch f rest s).map (addCap cap acc.reverse))
          (match s with
           | [] => none
           | x :: xs =>
               if p x then reMatch f (RItem.many p (x :: acc) false g cap :: rest) xs else none)

/-- Run the matcher with enough fuel for its maximal depth. -/
def reRun (items : List RItem) (s : List Char) : Option (List (Nat × List Char)) :=
  reMatch (s.length + items.length + 1) items s

/-- The prefix test applied to each trimmed candidate line: one or more
digits, a dot, whitespace, then an uppercase letter or digit; the trailing
universal quantifier makes the pattern unanchored on the right. -/
def aiFilterItems : List RItem :=
  [RItem.many jsDigitChar [] true true none,
   RItem.lit '.',
   RItem.many jsSpaceChar [] true true none,
   RItem.one upperDigitChar,
   RItem.many anyCharClass [] false true none]

/-- The anchored three-field line pattern: digits, a dot, whitespace, the
part-number group, then description and manufacturer separated by dashes,
with the description group lazy. -/
def aiLineItems : List RItem :=
  [RItem.many jsDigitChar [] true true none,
   RItem.lit '.',
   RItem.many jsSpaceChar [] true true none,
   RItem.many partNumberChar [] true true (some 1),
   RItem.many jsSpaceChar [] false true none,
   RItem.lit '-',
   RItem.many jsSpaceChar [] false true none,
   RItem.many dotChar [] true false (some 2),
   RItem.many jsSpaceChar [] false true none,
   RItem.lit '-',
   RItem.many jsSpaceChar [] false true none,
   RItem.many dotChar [] true true (some 3)]

structure SynthAlt where
  partNumber : String
  description : String
  manufacturer : String
deriving DecidableEq, Repr

/-- The test of the prefix pattern against the trimmed line. -/
def aiLineTest (line : String) : Bool :=
  (reRun aiFilterItems (jsTrim line).toList).isSome

/-- Match one raw line against the three-field pattern and build the
alternative from the trimmed capture groups; lines that fail the pattern
yield nothing. -/
def aiLineParse (line : String) : Option SynthAlt :=
  match reRun aiLineItems line.toList with
  | none => none
  | some caps =>
      some { partNumber := jsTrim (String.mk ((caps.lookup 1).getD []))
             description := jsTrim (String.mk ((caps.lookup 2).getD []))
             manufacturer := jsTrim (String.mk ((caps.lookup 3).getD [])) }

/-- Parse a model reply in batch mode: split into lines, drop blank lines,
keep lines passing the prefix test, keep only lines matching the three-field
pattern, and truncate to three entries. -/
def parseAiAlternatives (content : String) : List SynthAlt :=
  let lines := (jsSplit content '\n').filter (fun l => decide (jsTrim l ≠ ""))
  (((lines.filter aiLineTest).filterMap aiLineParse)).take 3

/-! ## Per-Part Aggregator and Batch Orchestrator

Model of the bulk-process handler.  One PartEnv record carries, for one part
number, the outcome of each awaited external call of that loop iteration: the
scrape, the search call, and the model call.  The model call outcome is a
transport-level result carrying the response status flag and the outcome of
extracting the reply text from the decoded body.  The unexpected field models
an exception raised in the per-part flow outside the three inner handlers,
which the code catches in the outer per-part catch block; it is taken to be
raised at the start of the iteration, a choice no claim depends on. -/

structure EvidenceItem where
  title : String
  link : String
  snippet : String
deriving DecidableEq, Repr

structure AiHttpResponse where
  ok : Bool
  content : Except String String
deriving Repr

structure PartEnv where
  ti : Except String (List CrossRefAlt)
  search : Except String (List EvidenceItem)
  aiFetch : Except String AiHttpResponse
  unexpected : Option String

structure PartResult where
  originalPart : String
  tiAlternatives : List CrossRefAlt
  aiAlternatives : List SynthAlt
  status : String
  error : Option String
deriving DecidableEq, Repr

/-- Does the synthesis step fail for this environment: the model call errors
at transport level, or returns a response that is not ok, or the reply
extraction throws. -/
def aiSynthFailed (env : PartEnv) : Bool :=
  match env.aiFetch with
  | Except.error _ => true
  | Except.ok resp =>
      !resp.ok ||
      (match resp.content with
       | Except.error _ => true
       | Except.ok _ => false)

/-- One iteration of the bulk-process loop.  Each of the three source calls
is wrapped in its own try catch that degrades its failure to an empty result;
a response that is not ok leaves the parsed list empty as well.  Only the
modelled unexpected exception reaches the outer catch, which records an error
result for the part. -/
def processPart (partNumber : String) (env : PartEnv) : PartResult :=
  match env.unexpected with
  | some msg =>
      { originalPart := partNumber
        tiAlternatives := []
        aiAlternatives := []
        status := "error"
        error := some msg }
  | none =>
      let tiAlternatives : List CrossRefAlt :=
        match env.ti with
        | Except.ok l => l
        | Except.error _ => []
      let aiAlternatives : List SynthAlt :=
        match env.aiFetch with
        | Except.error _ => []
        | Except.ok resp =>
            if resp.ok then
              match resp.content with
              | Except.error _ => []
              | Except.ok content => parseAiAlternatives content
            else []
      { originalPart := partNumber
        tiAlternatives := tiAlternatives.take 1
        aiAlternatives := aiAlternatives.take 3
        status := "success"
        error := none }

/-- The sequential loop over the part numbers, from the given index on.
Produces the accumulated results list, the top-level errors list fed by the
outer per-part catch, and the log of external calls made. -/
def runParts (env : Nat → PartEnv) : List String → Nat → List PartResult × List (String × String) × List String
  | [], _ => ([], [], [])
  | p :: rest, i =>
      let tail := runParts env rest (i + 1)
      (processPart p (env i) :: tail.1,
       (match (env i).unexpected with
        | some m => [(p, m)]
        | none => []) ++ tail.2.1,
       (match (env i).unexpected with
        | some _ => []
        | none => ["scrape:" ++ p, "google:" ++ p, "openai:" ++ p]) ++ tail.2.2)

structure BatchSummary where
  results : List PartResult
  errors : List (String × String)
  totalProcessed : Nat
  successCount : Nat
  errorCount : Nat
deriving DecidableEq, Repr

/-- The bulk-process handler: reject an empty list and a list of more than
ten part numbers before any work, otherwise run the loop and assemble the
summary.  The second component is the log of external calls made. -/
def bulkProcess (partNumbers : List String) (env : Nat → PartEnv) :
    Except String BatchSummary × List String :=
  if partNumbers.isEmpty then
    (Except.error "Part numbers array is required", [])
  else if 10 < partNumbers.length then
    (Except.error "Maximum 10 part numbers allowed", [])
  else
    let run := runParts env partNumbers 0
    (Except.ok
      { results := run.1
        errors := run.2.1
        totalProcessed := run.1.length
        successCount := (run.1.filter (fun r => r.status == "success")).length
        errorCount := run.2.1.length },
     run.2.2)

/-! ## Export projection

Model of the per-result row built by the bulk-export handler. -/

/-- The fixed seven-column row the export builds from one result: original
part, first structured alternative and its match type, the first three
synthesized parts, and the status.  Missing entries become the placeholder;
a falsy match type on a present structured alternative falls back to the
default label. -/
def exportRow (r : PartResult) : List String :=
  [r.originalPart,
   match r.tiAlternatives with
   | [] => "N/A"
   | a :: _ => a.partNumber,
   match r.tiAlternatives with
   | [] => "N/A"
   | a :: _ => if a.matchType == "" then "Cross-Reference Match" else a.matchType,
   match r.aiAlternatives.get? 0 with
   | some a => a.partNumber
   | none => "N/A",
   match r.aiAlternatives.get? 1 with
   | some a => a.partNumber
   | none => "N/A",
   match r.aiAlternatives.get? 2 with
   | some a => a.partNumber
   | none => "N/A",
   r.status]

/-- The row as the specification words it: the match-type column is the
first structured alternative match type itself, with the placeholder used
exactly when the alternative is absent. -/
def exportRowSpec (r : PartResult) : List String :=
  [r.originalPart,
   match r.tiAlternatives with
   | [] => "N/A"
   | a :: _ => a.partNumber,
   match r.tiAlternatives with
   | [] => "N/A"
   | a :: _ => a.matchType,
   match r.aiAlternatives.get? 0 with
   | some a => a.partNumber
   | none => "N/A",
   match r.aiAlternatives.get? 1 with
   | some a => a.partNumber
   | none => "N/A",
   match r.aiAlternatives.get? 2 with
   | some a => a.partNumber
   | none => "N/A",
   r.status]

/-! ## Spreadsheet upload

Model of the bulk-upload handler from the parsed sheet onward.  A sheet is a
list of rows; the first cell of a row is either a string, some other value,
or absent in an empty row. -/

inductive Cell where
  | str (s : String)
  | other
deriving DecidableEq, Repr

/-- The first-cell filter: the cell must be present, truthy, a string, and
nonblank after trimming. -/
def cellKeep : Option Cell → Bool
  | some (Cell.str s) => decide (s ≠ "") && decide (0 < (jsTrim s).length)
  | _ => false

/-- Trim a surviving first cell. -/
def cellTrim : Option Cell → String
  | some (Cell.str s) => jsTrim s
  | _ => ""

/-- The valid part numbers of a sheet before truncation: first column,
filtered, trimmed. -/
def uploadValidParts (rows : List (List Cell)) : List String :=
  (((rows.map List.head?).filter cellKeep).map cellTrim)

/-- The bulk-upload handler from the parsed sheet: extract the first column,
filter and trim, truncate to ten, then run the emptiness and limit checks.
On success it returns the part numbers and their count. -/
def bulkUpload (rows : List (List Cell)) : Except String (List String × Nat) :=
  let partNumbers := (uploadValidParts rows).take 10
  if partNumbers.length = 0 then
    Except.error "No valid part numbers found in the file"
  else if 10 < partNumbers.length then
    Except.error "Maximum 10 part numbers allowed"
  else
    Except.ok (partNumbers, partNumbers.length)

/-! ## Auxiliary predicates and concrete inputs used by the theorems -/

/-- The capture index of an item, if it captures. -/
def capIdx : RItem → Option Nat
  | RItem.many _ _ _ _ c => c
  | _ => none

/-- Invariant on a quantified item: every character consumed so far belongs
to its class. -/
def GoodItem : RItem → Prop
  | RItem.many p acc _ _ _ => ∀ c ∈ acc, p c = true
  | _ => True

/-- A part environment in which both evidence sources succeed with nothing
and the model call fails at transport level. -/
def quietPartEnv : PartEnv :=
  { ti := Except.ok []
    search := Except.ok []
    aiFetch := Except.error "model call failed"
    unexpected := none }

/-- A part environment hit by an unexpected exception outside the inner
handlers. -/
def failingPartEnv : PartEnv :=
  { ti := Except.ok []
    search := Except.ok []
    aiFetch := Except.error "model call failed"
    unexpected := some "pipeline exploded" }

/-- Batch environment: the first part is quiet, later parts fail
unexpectedly. -/
def mixedBatchEnv : Nat → PartEnv :=
  fun i => if i = 0 then quietPartEnv else failingPartEnv

/-- A model reply with two well-formed and two malformed lines. -/
def c5TwoGoodTwoBad : String :=
  "1. LM1117 - linear regulator - onsemi\nnot a numbered line\n2. AZ1117 - ldo regulator - Diodes\nbad line here"

/-- A product anchor whose enclosing row mentions an exact match. -/
def c7Anchor : Anchor :=
  { text := " TLV1117 "
    href := "https://www.ti.com/product/TLV1117"
    title := ""
    ancestors := ["result row exact match"] }

/-- An input list of eleven part numbers. -/
def elevenParts : List String :=
  ["P1", "P2", "P3", "P4", "P5", "P6", "P7", "P8", "P9", "P10", "P11"]

/-- A result with one structured alternative, used to evaluate the export
projection. -/
def c9Result : PartResult :=
  { originalPart := "LM317"
    tiAlternatives := [{ partNumber := "TLV1117", matchType := "Exact Match",
                         href := "https://www.ti.com/product/TLV1117", title := "TLV1117" }]
    aiAlternatives := [{ partNumber := "AZ1117", description := "ldo", manufacturer := "Diodes" }]
    status := "success"
    error := none }

/-- A parsed sheet whose first column holds eleven part numbers. -/
def elevenRows : List (List Cell) :=
  [[Cell.str "P1"], [Cell.str "P2"], [Cell.str "P3"], [Cell.str "P4"], [Cell.str "P5"],
   [Cell.str "P6"], [Cell.str "P7"], [Cell.str "P8"], [Cell.str "P9"], [Cell.str "P10"],
   [Cell.str "P11"]]

/-- The summary produced for the two-part batch under the mixed
environment, used as a concrete witness. -/
def c3Summary : BatchSummary :=
  { results := [{ originalPart := "LM317", tiAlternatives := [], aiAlternatives := [],
                  status := "success", error := none },
                { originalPart := "NE555", tiAlternatives := [], aiAlternatives := [],
                  status := "error", error := some "pipeline exploded" }]
    errors := [("NE555", "pipeline exploded")]
    totalProcessed := 2
    successCount := 1
    errorCount := 1 }

/-! ## Helper lemmas -/

/-- Each branch of the ancestor if chain yields a label of the fixed
vocabulary. -/
lemma inferAncestorMatch_mem (t label : String) (h : inferAncestorMatch t = some label) :
    label ∈ matchTypeLabels := by
  unfold inferAncestorMatch at h
  simp only [Bool.or_eq_true] at h
  split_ifs at h <;> simp_all [matchTypeLabels]

/-- The inferred match type always lies in the fixed vocabulary. -/
lemma inferMatchType_mem_labels (chain : List String) :
    inferMatchType chain ∈ matchTypeLabels := by
  induction chain with
  | nil => simp [inferMatchType, matchTypeLabels]
  | cons t rest ih =>
      rw [inferMatchType]
      cases h : inferAncestorMatch t with
      | none => exact ih
      | some label => exact inferAncestorMatch_mem t label h

/-- The if chain of the code tests the same conditions, in the same order,
as the corrected vocabulary walk on one ancestor. -/
lemma inferAncestorMatch_eq_amended (t : String) :
    inferAncestorMatch t = phraseLabel amendedVocab t := by
  unfold inferAncestorMatch phraseLabel amendedVocab
  cases h1 : jsIncludes (jsToLower t) "drop-in replacement" <;>
  cases h2 : jsIncludes (jsToLower t) "drop in replacement" <;>
  cases h3 : jsIncludes (jsToLower t) "exact match" <;>
  cases h4 : jsIncludes (jsToLower t) "same functionality" <;>
  cases h5 : jsIncludes (jsToLower t) "pin compatible" <;>
  cases h6 : jsIncludes (jsToLower t) "functional equivalent" <;>
  cases h7 : jsIncludes (jsToLower t) "compatible" <;>
  cases h8 : jsIncludes (jsToLower t) "replacement" <;>
  simp [h1, h2, h3, h4, h5, h6, h7, h8, List.find?, List.any]

/-! ## Claims about the Structured-Source Extractor -/

/-- C4 counterexample: on an ancestor containing both the exact-match phrase
and the drop-in phrase, the code assigns the drop-in label because its if
chain tests the drop-in phrases first, while the claimed priority, with
Exact Match first, would assign the exact-match label. -/
theorem c4_counterexample :
    inferMatchType ["Exact match drop-in replacement"] = "Drop-in replacement" ∧
    claimInferMatchType ["Exact match drop-in replacement"] = "Exact Match" ∧
    ("Drop-in replacement" : String) ≠ "Exact Match" := by
  refine ⟨by decide, by decide, by decide⟩

/-- C4 amended: for each surviving anchor the ancestor chain is walked
outward and the first ancestor containing any match-type phrase decides the
label, with phrase priority Drop-in replacement first (including the
spelling without a hyphen), then Exact Match, Same Functionality,
Pin Compatible, Functional Equivalent, Compatible, Replacement; the default
label is assigned when no phrase occurs on the chain. -/
theorem c4_amended_match_priority (chain : List String) :
    inferMatchType chain = amendedInferMatchType chain := by
  induction chain with
  | nil => rfl
  | cons t rest ih =>
      rw [inferMatchType]
      unfold amendedInferMatchType
      rw [walkMatchType]
      rw [← inferAncestorMatch_eq_amended]
      cases h : inferAncestorMatch t with
      | none => exact ih
      | some label => rfl

/-- C6: the extractor never raises to its caller: for every environment the
call returns an ordinary list, equal to the extracted alternatives when all
steps succeed and empty on any internal failure, and the browser session is
closed before returning exactly when the launch produced one. -/
theorem c6_scrape_never_raises (env : ScrapeEnv) :
    (scrapeTICrossReference env).1 = Except.ok (scrapeReturn env) ∧
    (scrapeTICrossReference env).2 = exceptOk env.launch := by
  obtain ⟨l, g, w, e⟩ := env
  cases l <;> cases g <;> cases w <;> cases e <;>
    simp [scrapeTICrossReference, scrapeReturn, exceptOk]

/-- C7: every alternative the extractor produces has a match type from the
fixed vocabulary, a part number of plausible length, and a part number
containing none of the denylisted labels. -/
theorem c7_crossref_invariants (anchors : List Anchor) (alt : CrossRefAlt)
    (h : alt ∈ extractAlternatives anchors) :
    alt.matchType ∈ matchTypeLabels ∧
    3 < alt.partNumber.length ∧ alt.partNumber.length < 20 ∧
    ∀ d ∈ denylistTerms, jsIncludes alt.partNumber d = false := by
  obtain ⟨a, ha, rfl⟩ := List.mem_map.mp h
  have hk : anchorKeep a = true := (List.mem_filter.mp ha).2
  unfold anchorKeep at hk
  simp only [Bool.and_eq_true, decide_eq_true_eq, List.all_eq_true, Bool.not_eq_true'] at hk
  obtain ⟨⟨⟨⟨-, h3⟩, h20⟩, -⟩, hdeny⟩ := hk
  refine ⟨inferMatchType_mem_labels a.ancestors, ?_, ?_, ?_⟩
  · simpa [anchorToAlt] using h3
  · simpa [anchorToAlt] using h20
  · intro d hd
    simpa [anchorToAlt] using hdeny d hd

/-- C7 witness at a concrete anchor list. -/
theorem c7_witness :
    (anchorToAlt c7Anchor).matchType ∈ matchTypeLabels ∧
    3 < (anchorToAlt c7Anchor).partNumber.length ∧
    (anchorToAlt c7Anchor).partNumber.length < 20 ∧
    ∀ d ∈ denylistTerms, jsIncludes (anchorToAlt c7Anchor).partNumber d = false :=
  c7_crossref_invariants [c7Anchor] (anchorToAlt c7Anchor) (by decide)

/-! ## Claims about the Per-Part Aggregator and the Batch Orchestrator -/

/-- C1 counterexample: with the model call failing at transport level and no
unexpected exception, the produced result has status success, not the
claimed error status. -/
theorem c1_counterexample :
    (processPart "LM317" quietPartEnv).status = "success" ∧
    (processPart "LM317" quietPartEnv).status ≠ "error" := by
  exact ⟨rfl, by decide⟩

/-- C1 amended: in batch mode a synthesis failure (model call transport
error, response not ok, or reply extraction throwing) is caught by the
per-part handler: the part keeps status success with an empty synthesized
list; only an unexpected exception outside the three inner handlers marks
the part with status error and the captured message. -/
theorem c1_amended_synthesis_tolerated (p : String) (env : PartEnv) :
    (env.unexpected = none →
      (processPart p env).status = "success" ∧
      (aiSynthFailed env = true → (processPart p env).aiAlternatives = [])) ∧
    (∀ m, env.unexpected = some m →
      (processPart p env).status = "error" ∧ (processPart p env).error = some m) := by
  obtain ⟨ti, search, aiFetch, unexpected⟩ := env
  constructor
  · rintro rfl
    constructor
    · rfl
    · intro hfail
      cases aiFetch with
      | error e => rfl
      | ok resp =>
          obtain ⟨ok, content⟩ := resp
          cases ok with
          | false => rfl
          | true =>
              cases content with
              | error e => rfl
              | ok c => simp [aiSynthFailed] at hfail
  · rintro m rfl
    exact ⟨rfl, rfl⟩

/-- C1 amended witness at concrete environments. -/
theorem c1_amended_witness :
    (processPart "LM317" quietPartEnv).status = "success" ∧
    (processPart "LM317" quietPartEnv).aiAlternatives = [] ∧
    (processPart "NE555" failingPartEnv).status = "error" ∧
    (processPart "NE555" failingPartEnv).error = some "pipeline exploded" :=
  ⟨((c1_amended_synthesis_tolerated "LM317" quietPartEnv).1 rfl).1,
   ((c1_amended_synthesis_tolerated "LM317" quietPartEnv).1 rfl).2 rfl,
   ((c1_amended_synthesis_tolerated "NE555" failingPartEnv).2 "pipeline exploded" rfl).1,
   ((c1_amended_synthesis_tolerated "NE555" failingPartEnv).2 "pipeline exploded" rfl).2⟩

/-- Every result of one loop iteration carries its input part number. -/
lemma processPart_originalPart (p : String) (e : PartEnv) :
    (processPart p e).originalPart = p := by
  unfold processPart
  cases e.unexpected <;> rfl

/-- The loop produces exactly the input part numbers as the original parts
of its results, in order. -/
lemma runParts_results_originalPart (env : Nat → PartEnv) :
    ∀ (parts : List String) (i : Nat),
      (runParts env parts i).1.map PartResult.originalPart = parts := by
  intro parts
  induction parts with
  | nil => intro i; rfl
  | cons p rest ih =>
      intro i
      simp [runParts, processPart_originalPart, ih (i + 1)]

/-- C2: for every accepted batch of one to ten part numbers, the batch call
succeeds and returns exactly one result per input part number, in the input
order, whatever each per-part environment does. -/
theorem c2_one_result_per_input (partNumbers : List String) (env : Nat → PartEnv)
    (hne : partNumbers ≠ []) (hlen : partNumbers.length ≤ 10) :
    ∃ s, (bulkProcess partNumbers env).1 = Except.ok s ∧
      s.results.map PartResult.originalPart = partNumbers := by
  have h1 : partNumbers.isEmpty = false := by
    cases partNumbers with
    | nil => exact absurd rfl hne
    | cons a l => rfl
  have h2 : ¬ 10 < partNumbers.length := by omega
  refine ⟨{ results := (runParts env partNumbers 0).1
            errors := (runParts env partNumbers 0).2.1
            totalProcessed := (runParts env partNumbers 0).1.length
            successCount := ((runParts env partNumbers 0).1.filter
              (fun r => r.status == "success")).length
            errorCount := (runParts env partNumbers 0).2.1.length }, ?_, ?_⟩
  · simp [bulkProcess, h1, h2]
  · exact runParts_results_originalPart env partNumbers 0

/-- C2 witness at a concrete two-part batch with mixed outcomes. -/
theorem c2_witness :
    ∃ s, (bulkProcess ["LM317", "NE555"] mixedBatchEnv).1 = Except.ok s ∧
      s.results.map PartResult.originalPart = ["LM317", "NE555"] :=
  c2_one_result_per_input ["LM317", "NE555"] mixedBatchEnv (by decide) (by decide)

/-- Per iteration the loop adds one result, which counts as a success
exactly when it adds no top-level error entry. -/
lemma runParts_counts (env : Nat → PartEnv) :
    ∀ (parts : List String) (i : Nat),
      ((runParts env parts i).1.filter (fun r => r.status == "success")).length
        + (runParts env parts i).2.1.length = parts.length := by
  intro parts
  induction parts with
  | nil => intro i; rfl
  | cons p rest ih =>
      intro i
      have := ih (i + 1)
      cases h : (env i).unexpected with
      | none =>
          simp [runParts, processPart, h, List.filter_cons]
          omega
      | some m =>
          simp [runParts, processPart, h, List.filter_cons]
          omega

/-- The loop yields one result per remaining part. -/
lemma runParts_length (env : Nat → PartEnv) (parts : List String) (i : Nat) :
    (runParts env parts i).1.length = parts.length := by
  have := congrArg List.length (runParts_results_originalPart env parts i)
  simpa using this

/-- C3: every summary the batch call returns satisfies the counting
contract: total equals the number of results, success plus error counts
equal the total, successes are the results with status success, and the
error count is the length of the top-level errors list. -/
theorem c3_summary_counts (partNumbers : List String) (env : Nat → PartEnv)
    (s : BatchSummary) (h : (bulkProcess partNumbers env).1 = Except.ok s) :
    s.totalProcessed = s.results.length ∧
    s.successCount + s.errorCount = s.totalProcessed ∧
    s.successCount = (s.results.filter (fun r => r.status == "success")).length ∧
    s.errorCount = s.errors.length := by
  unfold bulkProcess at h
  by_cases h1 : partNumbers.isEmpty
  · rw [if_pos h1] at h
    exact absurd h (by simp)
  · rw [if_neg h1] at h
    by_cases h2 : 10 < partNumbers.length
    · rw [if_pos h2] at h
      exact absurd h (by simp)
    · rw [if_neg h2] at h
      simp only [Except.ok.injEq] at h
      subst h
      refine ⟨rfl, ?_, rfl, rfl⟩
      dsimp only
      have hc := runParts_counts env partNumbers 0
      have hl := runParts_length env partNumbers 0
      omega

/-- C3 witness at a concrete two-part batch with one success and one
unexpected failure. -/
theorem c3_witness :
    c3Summary.totalProcessed = c3Summary.results.length ∧
    c3Summary.successCount + c3Summary.errorCount = c3Summary.totalProcessed ∧
    c3Summary.successCount
      = (c3Summary.results.filter (fun r => r.status == "success")).length ∧
    c3Summary.errorCount = c3Summary.errors.length :=
  c3_summary_counts ["LM317", "NE555"] mixedBatchEnv c3Summary rfl

/-- C8: an empty input list and a list of more than ten part numbers are
rejected with an error before any external call: the call log is empty and
no summary, in particular no empty successful one, is produced. -/
theorem c8_reject_before_work (partNumbers : List String) (env : Nat → PartEnv) :
    (partNumbers = [] →
      bulkProcess partNumbers env = (Except.error "Part numbers array is required", [])) ∧
    (10 < partNumbers.length →
      bulkProcess partNumbers env = (Except.error "Maximum 10 part numbers allowed", [])) := by
  constructor
  · rintro rfl
    rfl
  · intro h
    have h1 : partNumbers.isEmpty = false := by
      cases partNumbers with
      | nil => simp at h
      | cons a l => rfl
    simp [bulkProcess, h1, h]

/-- C8 witness: the empty batch and an eleven-part batch are both rejected
with an empty call log. -/
theorem c8_witness :
    bulkProcess [] mixedBatchEnv = (Except.error "Part numbers array is required", []) ∧
    bulkProcess elevenParts mixedBatchEnv = (Except.error "Maximum 10 part numbers allowed", []) :=
  ⟨(c8_reject_before_work [] mixedBatchEnv).1 rfl,
   (c8_reject_before_work elevenParts mixedBatchEnv).2 (by decide)⟩

/-! ## Claims about the export projection and the spreadsheet upload -/

/-- C9: the export projection is a pure function producing the fixed
seven-column row, with the placeholder exactly at absent alternatives; it
agrees with the specified row whenever the first structured alternative has
a nonempty match type, which every pipeline-produced alternative has. -/
theorem c9_export_row (r : PartResult)
    (h : ∀ a ∈ r.tiAlternatives, a.matchType ≠ "") :
    exportRow r = exportRowSpec r ∧ (exportRow r).length = 7 := by
  constructor
  · unfold exportRow exportRowSpec
    cases hti : r.tiAlternatives with
    | nil => rfl
    | cons a rest =>
        have ha : a.matchType ≠ "" := h a (by rw [hti]; exact List.mem_cons_self a rest)
        have hb : (a.matchType == "") = false := by
          simpa using ha
        simp [hb]
  · rfl

/-- C9 witness at a concrete result. -/
theorem c9_witness :
    exportRow c9Result = exportRowSpec c9Result ∧ (exportRow c9Result).length = 7 :=
  c9_export_row c9Result (by decide)

/-- C10: the upload path truncates to ten valid part numbers before the
limit check, so the limit rejection is unreachable for every sheet, and a
sheet with more than ten valid part numbers is accepted with exactly the
first ten returned. -/
theorem c10_upload_truncates (rows : List (List Cell)) :
    bulkUpload rows ≠ Except.error "Maximum 10 part numbers allowed" ∧
    (10 < (uploadValidParts rows).length →
      bulkUpload rows = Except.ok ((uploadValidParts rows).take 10, 10)) := by
  have hle : ((uploadValidParts rows).take 10).length ≤ 10 := by
    rw [List.length_take]
    omega
  constructor
  · unfold bulkUpload
    by_cases h0 : ((uploadValidParts rows).take 10).length = 0
    · rw [if_pos h0]
      intro hc
      simp only [Except.error.injEq] at hc
      exact absurd hc (by decide)
    · rw [if_neg h0, if_neg (by omega)]
      simp
  · intro h
    have hlen : ((uploadValidParts rows).take 10).length = 10 := by
      rw [List.length_take]
      omega
    unfold bulkUpload
    rw [if_neg (by omega), if_neg (by omega), hlen]

/-- C10 witness: a sheet of eleven part numbers is accepted with the first
ten returned, not rejected. -/
theorem c10_witness :
    bulkUpload elevenRows = Except.ok ((uploadValidParts elevenRows).take 10, 10) :=
  (c10_upload_truncates elevenRows).2 (by decide)

/-! ## Capture analysis for the line matcher -/

/-- Looking a key up in the capture list finds one of its entries. -/
lemma lookup_mem {caps : List (Nat × List Char)} {i : Nat} {l : List Char}
    (h : caps.lookup i = some l) : (i, l) ∈ caps := by
  induction caps with
  | nil => simp [List.lookup] at h
  | cons e rest ih =>
      obtain ⟨k, v⟩ := e
      rw [List.lookup] at h
      cases hk : (i == k) with
      | true =>
          simp only [hk] at h
          injection h with h
          subst h
          have hik : i = k := by simpa using hk
          subst hik
          exact List.mem_cons_self _ _
      | false =>
          simp only [hk] at h
          exact List.mem_cons_of_mem _ (ih h)

/-- A key occurring in the capture list is found by lookup. -/
lemma lookup_of_key_mem {caps : List (Nat × List Char)} {i : Nat} {l0 : List Char}
    (h : (i, l0) ∈ caps) : ∃ l, caps.lookup i = some l := by
  induction caps with
  | nil => simp at h
  | cons e rest ih =>
      obtain ⟨k, v⟩ := e
      rw [List.lookup]
      cases hk : (i == k) with
      | true => exact ⟨v, by simp only [hk]⟩
      | false =>
          simp only [hk]
          rcases List.mem_cons.mp h with heq | hmem
          · injection heq with h1 h2
            subst h1
            simp at hk
          · exact ih hmem

/-- Inversion of one literal-item step of the matcher. -/
lemma reMatch_lit_step {f : Nat} {c : Char} {rest : List RItem} {s : List Char}
    {caps : List (Nat × List Char)}
    (h : reMatch (f + 1) (RItem.lit c :: rest) s = some caps) :
    ∃ x xs, s = x :: xs ∧ (x == c) = true ∧ reMatch f rest xs = some caps := by
  cases s with
  | nil => simp [reMatch] at h
  | cons x xs =>
      simp only [reMatch] at h
      by_cases hx : (x == c) = true
      · rw [if_pos hx] at h
        exact ⟨x, xs, rfl, hx, h⟩
      · rw [if_neg hx] at h
        exact absurd h (by simp)

/-- Inversion of one single-character-class step of the matcher. -/
lemma reMatch_one_step {f : Nat} {p : Char → Bool} {rest : List RItem} {s : List Char}
    {caps : List (Nat × List Char)}
    (h : reMatch (f + 1) (RItem.one p :: rest) s = some caps) :
    ∃ x xs, s = x :: xs ∧ p x = true ∧ reMatch f rest xs = some caps := by
  cases s with
  | nil => simp [reMatch] at h
  | cons x xs =>
      simp only [reMatch] at h
      by_cases hx : p x = true
      · rw [if_pos hx] at h
        exact ⟨x, xs, rfl, hx, h⟩
      · rw [if_neg hx] at h
        exact absurd h (by simp)

/-- Inversion of one step at a quantified item that still owes a character:
the matcher must consume one class character into the accumulator. -/
lemma reMatch_many_true_step {f : Nat} {p : Char → Bool} {acc : List Char} {g : Bool}
    {cap : Option Nat} {rest : List RItem} {s : List Char} {caps : List (Nat × List Char)}
    (h : reMatch (f + 1) (RItem.many p acc true g cap :: rest) s = some caps) :
    ∃ x xs, s = x :: xs ∧ p x = true ∧
      reMatch f (RItem.many p (x :: acc) false g cap :: rest) xs = some caps := by
  cases s with
  | nil =>
      simp only [reMatch] at h
      rw [if_true] at h
      exact absurd h (by simp)
  | cons x xs =>
      simp only [reMatch] at h
      rw [if_true] at h
      by_cases hx : p x = true
      · rw [if_pos hx] at h
        exact ⟨x, xs, rfl, hx, h⟩
      · rw [if_neg hx] at h
        exact absurd h (by simp)

/-- Inversion of one step at a satisfied quantified item: the matcher either
consumes one more class character or retires the item, emitting its
capture. -/
lemma reMatch_many_false_step {f : Nat} {p : Char → Bool} {acc : List Char} {g : Bool}
    {cap : Option Nat} {rest : List RItem} {s : List Char} {caps : List (Nat × List Char)}
    (h : reMatch (f + 1) (RItem.many p acc false g cap :: rest) s = some caps) :
    (∃ x xs, s = x :: xs ∧ p x = true ∧
       reMatch f (RItem.many p (x :: acc) false g cap :: rest) xs = some caps) ∨
    (∃ caps2, reMatch f rest s = some caps2 ∧ caps = addCap cap acc.reverse caps2) := by
  cases s with
  | nil =>
      simp only [reMatch] at h
      rw [if_neg Bool.false_ne_true] at h
      cases g with
      | true =>
          rw [if_pos rfl] at h
          cases hB : reMatch f rest [] with
          | some caps2 =>
              rw [hB] at h
              simp only [Option.map_some', orElseO] at h
              injection h with h
              exact Or.inr ⟨caps2, rfl, h.symm⟩
          | none =>
              rw [hB] at h
              simp [orElseO] at h
      | false =>
          rw [if_neg Bool.false_ne_true] at h
          cases hB : reMatch f rest [] with
          | some caps2 =>
              rw [hB] at h
              simp only [Option.map_some', orElseO] at h
              injection h with h
              exact Or.inr ⟨caps2, rfl, h.symm⟩
          | none =>
              rw [hB] at h
              simp [orElseO] at h
  | cons x xs =>
      simp only [reMatch] at h
      rw [if_neg Bool.false_ne_true] at h
      cases g with
      | true =>
          rw [if_pos rfl] at h
          by_cases hx : p x = true
          · rw [if_pos hx] at h
            cases hr : reMatch f (RItem.many p (x :: acc) false true cap :: rest) xs with
            | some r =>
                rw [hr] at h
                simp only [orElseO] at h
                injection h with h
                subst h
                exact Or.inl ⟨x, xs, rfl, hx, hr⟩
            | none =>
                rw [hr] at h
                simp only [orElseO] at h
                cases hB : reMatch f rest (x :: xs) with
                | some caps2 =>
                    rw [hB] at h
                    simp only [Option.map_some'] at h
                    injection h with h
                    exact Or.inr ⟨caps2, rfl, h.symm⟩
                | none =>
                    rw [hB] at h
                    simp at h
          · rw [if_neg hx] at h
            simp only [orElseO] at h
            cases hB : reMatch f rest (x :: xs) with
            | some caps2 =>
                rw [hB] at h
                simp only [Option.map_some'] at h
                injection h with h
                exact Or.inr ⟨caps2, rfl, h.symm⟩
            | none =>
                rw [hB] at h
                simp at h
      | false =>
          rw [if_neg Bool.false_ne_true] at h
          cases hB : reMatch f rest (x :: xs) with
          | some caps2 =>
              rw [hB] at h
              simp only [Option.map_some', orElseO] at h
              injection h with h
              exact Or.inr ⟨caps2, rfl, h.symm⟩
          | none =>
              rw [hB] at h
              simp only [Option.map_none', orElseO] at h
              by_cases hx : p x = true
              · rw [if_pos hx] at h
                exact Or.inl ⟨x, xs, rfl, hx, h⟩
              · rw [if_neg hx] at h
                exact absurd h (by simp)


/-- Membership in a capture list is preserved by appending a capture. -/
lemma mem_addCap {cap : Option Nat} {l0 : List Char} {caps : List (Nat × List Char)}
    {e : Nat × List Char} (h : e ∈ caps) : e ∈ addCap cap l0 caps := by
  cases cap with
  | none => exact h
  | some j => exact List.mem_cons_of_mem _ h

/-- Completeness of captures: a successful match records an entry for every
capturing item of the pattern. -/
lemma reMatch_caps_complete :
    ∀ (fuel : Nat) (items : List RItem) (s : List Char) (caps : List (Nat × List Char)),
      reMatch fuel items s = some caps →
      ∀ it ∈ items, ∀ i, capIdx it = some i → ∃ l, (i, l) ∈ caps := by
  intro fuel
  induction fuel with
  | zero =>
      intro items s caps h
      simp [reMatch] at h
  | succ f ih =>
      intro items s caps h it hit i hcap
      cases items with
      | nil => exact absurd hit (List.not_mem_nil it)
      | cons item rest =>
          cases item with
          | lit c =>
              obtain ⟨x, xs, rfl, hx, h2⟩ := reMatch_lit_step h
              rcases List.mem_cons.mp hit with rfl | hmem
              · exact absurd hcap (by simp [capIdx])
              · exact ih rest xs caps h2 it hmem i hcap
          | one p =>
              obtain ⟨x, xs, rfl, hx, h2⟩ := reMatch_one_step h
              rcases List.mem_cons.mp hit with rfl | hmem
              · exact absurd hcap (by simp [capIdx])
              · exact ih rest xs caps h2 it hmem i hcap
          | many p acc minOne g cap =>
              cases minOne with
              | true =>
                  obtain ⟨x, xs, rfl, hx, h2⟩ := reMatch_many_true_step h
                  rcases List.mem_cons.mp hit with rfl | hmem
                  · exact ih _ xs caps h2 (RItem.many p (x :: acc) false g cap)
                      (List.mem_cons_self _ _) i hcap
                  · exact ih _ xs caps h2 it (List.mem_cons_of_mem _ hmem) i hcap
              | false =>
                  rcases reMatch_many_false_step h with ⟨x, xs, rfl, hx, h2⟩ | ⟨caps2, h2, rfl⟩
                  · rcases List.mem_cons.mp hit with rfl | hmem
                    · exact ih _ xs caps h2 (RItem.many p (x :: acc) false g cap)
                        (List.mem_cons_self _ _) i hcap
                    · exact ih _ xs caps h2 it (List.mem_cons_of_mem _ hmem) i hcap
                  · rcases List.mem_cons.mp hit with rfl | hmem
                    · have hcap2 : cap = some i := hcap
                      subst hcap2
                      exact ⟨acc.reverse, by simp [addCap]⟩
                    · obtain ⟨l, hl⟩ := ih rest s caps2 h2 it hmem i hcap
                      exact ⟨l, mem_addCap hl⟩

/-- Soundness of captures: every entry of a successful match was emitted by
a capturing quantified item of the pattern; its characters belong to that
item class, and it is nonempty whenever the item still owed a character or
had already consumed some. -/
lemma reMatch_caps_sound :
    ∀ (fuel : Nat) (items : List RItem) (s : List Char) (caps : List (Nat × List Char)),
      (∀ it ∈ items, GoodItem it) →
      reMatch fuel items s = some caps →
      ∀ i l, (i, l) ∈ caps →
        ∃ p acc minOne g, RItem.many p acc minOne g (some i) ∈ items ∧
          (∀ c ∈ l, p c = true) ∧ ((minOne = true ∨ acc ≠ []) → l ≠ []) := by
  intro fuel
  induction fuel with
  | zero =>
      intro items s caps _ h
      simp [reMatch] at h
  | succ f ih =>
      intro items s caps hgood h i l hmem
      cases items with
      | nil =>
          cases s with
          | nil =>
              simp [reMatch] at h
              subst h
              simp at hmem
          | cons a as => simp [reMatch] at h
      | cons item rest =>
          have hgood_rest : ∀ it ∈ rest, GoodItem it :=
            fun it h2 => hgood it (List.mem_cons_of_mem _ h2)
          cases item with
          | lit c =>
              obtain ⟨x, xs, rfl, hx, h2⟩ := reMatch_lit_step h
              obtain ⟨p, acc, minOne, g, hin, hall, hne⟩ :=
                ih rest xs caps hgood_rest h2 i l hmem
              exact ⟨p, acc, minOne, g, List.mem_cons_of_mem _ hin, hall, hne⟩
          | one p0 =>
              obtain ⟨x, xs, rfl, hx, h2⟩ := reMatch_one_step h
              obtain ⟨p, acc, minOne, g, hin, hall, hne⟩ :=
                ih rest xs caps hgood_rest h2 i l hmem
              exact ⟨p, acc, minOne, g, List.mem_cons_of_mem _ hin, hall, hne⟩
          | many p acc minOne g cap =>
              have hgood_head : ∀ c ∈ acc, p c = true :=
                hgood (RItem.many p acc minOne g cap) (List.mem_cons_self _ _)
              cases minOne with
              | true =>
                  obtain ⟨x, xs, rfl, hx, h2⟩ := reMatch_many_true_step h
                  have hgood2 : ∀ it ∈ (RItem.many p (x :: acc) false g cap :: rest), GoodItem it := by
                    intro it h3
                    rcases List.mem_cons.mp h3 with rfl | hm
                    · show ∀ c ∈ x :: acc, p c = true
                      intro c hc
                      rcases List.mem_cons.mp hc with rfl | hc2
                      · exact hx
                      · exact hgood_head c hc2
                    · exact hgood_rest it hm
                  obtain ⟨p', acc', minOne', g', hin, hall, hne⟩ :=
                    ih _ xs caps hgood2 h2 i l hmem
                  rcases List.mem_cons.mp hin with heq | hm
                  · injection heq with e1 e2 e3 e4 e5
                    rw [e1] at hall
                    refine ⟨p, acc, true, g, ?_, hall, fun _ => ?_⟩
                    · rw [← e5]
                      exact List.mem_cons_self _ _
                    · exact hne (Or.inr (by simp [e2]))
                  · exact ⟨p', acc', minOne', g', List.mem_cons_of_mem _ hm, hall, hne⟩
              | false =>
                  rcases reMatch_many_false_step h with ⟨x, xs, rfl, hx, h2⟩ | ⟨caps2, h2, rfl⟩
                  · have hgood2 : ∀ it ∈ (RItem.many p (x :: acc) false g cap :: rest), GoodItem it := by
                      intro it h3
                      rcases List.mem_cons.mp h3 with rfl | hm
                      · show ∀ c ∈ x :: acc, p c = true
                        intro c hc
                        rcases List.mem_cons.mp hc with rfl | hc2
                        · exact hx
                        · exact hgood_head c hc2
                      · exact hgood_rest it hm
                    obtain ⟨p', acc', minOne', g', hin, hall, hne⟩ :=
                      ih _ xs caps hgood2 h2 i l hmem
                    rcases List.mem_cons.mp hin with heq | hm
                    · injection heq with e1 e2 e3 e4 e5
                      rw [e1] at hall
                      refine ⟨p, acc, false, g, ?_, hall, fun _ => ?_⟩
                      · rw [← e5]
                        exact List.mem_cons_self _ _
                      · exact hne (Or.inr (by simp [e2]))
                    · exact ⟨p', acc', minOne', g', List.mem_cons_of_mem _ hm, hall, hne⟩
                  · cases cap with
                    | none =>
                        obtain ⟨p', acc', minOne', g', hin, hall, hne⟩ :=
                          ih rest s caps2 hgood_rest h2 i l hmem
                        exact ⟨p', acc', minOne', g', List.mem_cons_of_mem _ hin, hall, hne⟩
                    | some j =>
                        simp only [addCap] at hmem
                        rcases List.mem_cons.mp hmem with heq | hm
                        · injection heq with hi hl
                          subst hi
                          subst hl
                          refine ⟨p, acc, false, g, List.mem_cons_self _ _, ?_, ?_⟩
                          · intro c hc
                            exact hgood_head c (List.mem_reverse.mp hc)
                          · intro hcond
                            rcases hcond with hf | hacc
                            · exact absurd hf (by simp)
                            · intro hrev
                              exact hacc (List.reverse_eq_nil_iff.mp hrev)
                        · obtain ⟨p', acc', minOne', g', hin, hall, hne⟩ :=
                            ih rest s caps2 hgood_rest h2 i l hm
                          exact ⟨p', acc', minOne', g', List.mem_cons_of_mem _ hin, hall, hne⟩

/-- Every item of the line pattern starts with an empty accumulator. -/
lemma aiLineItems_good : ∀ it ∈ aiLineItems, GoodItem it := by
  intro it hit
  simp only [aiLineItems, List.mem_cons, List.not_mem_nil, or_false] at hit
  rcases hit with rfl | rfl | rfl | rfl | rfl | rfl | rfl | rfl | rfl | rfl | rfl | rfl <;>
    first
      | exact trivial
      | (intro c hc; simp at hc)

/-- In a successful match of the line pattern, capture group one is recorded,
is nonempty, and consists of part-number characters only. -/
lemma aiLineItems_cap1 (s : List Char) (caps : List (Nat × List Char))
    (h : reRun aiLineItems s = some caps) :
    ∃ l, caps.lookup 1 = some l ∧ l ≠ [] ∧ ∀ c ∈ l, partNumberChar c = true := by
  have hcomplete := reMatch_caps_complete _ _ _ _ h
    (RItem.many partNumberChar [] true true (some 1)) (by simp [aiLineItems]) 1 rfl
  obtain ⟨l0, hl0⟩ := hcomplete
  obtain ⟨l, hl⟩ := lookup_of_key_mem hl0
  have hmem : (1, l) ∈ caps := lookup_mem hl
  obtain ⟨p, acc, minOne, g, hin, hall, hne⟩ :=
    reMatch_caps_sound _ _ _ _ aiLineItems_good h 1 l hmem
  simp only [aiLineItems, List.mem_cons, List.not_mem_nil, or_false] at hin
  have hid : p = partNumberChar ∧ acc = ([] : List Char) ∧ minOne = true := by
    rcases hin with h1 | h1 | h1 | h1 | h1 | h1 | h1 | h1 | h1 | h1 | h1 | h1 <;>
      first
        | (injection h1 with e1 e2 e3 e4 e5
           exact ⟨e1, e2, e3⟩)
        | (injection h1 with e1 e2 e3 e4 e5
           exact absurd e5 (by simp))
        | exact absurd h1 (by simp)
  refine ⟨l, hl, hne (Or.inl hid.2.2), ?_⟩
  intro c hc
  have := hall c hc
  rwa [hid.1] at this

/-- No part-number character is whitespace. -/
lemma partNumberChar_not_space {c : Char} (h : partNumberChar c = true) :
    jsSpaceChar c = false := by
  by_contra hs
  rw [Bool.not_eq_false] at hs
  unfold jsSpaceChar at hs
  simp only [Bool.or_eq_true, beq_iff_eq] at hs
  rcases hs with ((((rfl | rfl) | rfl) | rfl) | rfl) | rfl <;>
    exact absurd h (by decide)

/-- Dropping a leading run of a predicate no element satisfies is the
identity. -/
lemma dropWhile_eq_self_of_all {p : Char → Bool} {l : List Char}
    (h : ∀ c ∈ l, p c = false) : l.dropWhile p = l := by
  cases l with
  | nil => rfl
  | cons x xs =>
      rw [List.dropWhile_cons, h x (List.mem_cons_self _ _)]
      simp

/-- Trimming a list of nonblank characters is the identity. -/
lemma jsTrimList_of_no_space {l : List Char}
    (h : ∀ c ∈ l, jsSpaceChar c = false) : jsTrimList l = l := by
  unfold jsTrimList
  rw [dropWhile_eq_self_of_all h]
  rw [dropWhile_eq_self_of_all (fun c hc => h c (List.mem_reverse.mp hc))]
  exact List.reverse_reverse l

/-- Every alternative the line parser produces has a nonempty part
number. -/
lemma aiLineParse_partNumber_ne (line : String) (alt : SynthAlt)
    (h : aiLineParse line = some alt) : alt.partNumber ≠ "" := by
  unfold aiLineParse at h
  cases hm : reRun aiLineItems line.toList with
  | none =>
      rw [hm] at h
      exact absurd h (by simp)
  | some caps =>
      rw [hm] at h
      obtain ⟨l, hl, hlne, hall⟩ := aiLineItems_cap1 _ _ hm
      injection h with h
      subst h
      show jsTrim (String.mk ((caps.lookup 1).getD [])) ≠ ""
      rw [hl]
      show jsTrim (String.mk l) ≠ ""
      unfold jsTrim
      have hdata : (String.mk l).toList = l := rfl
      rw [hdata]
      rw [jsTrimList_of_no_space (fun c hc => partNumberChar_not_space (hall c hc))]
      intro hcontra
      exact hlne (congrArg String.data hcontra)

/-- Every alternative of a parsed batch reply has a nonempty part number. -/
lemma parseAi_mem_partNumber (content : String) (alt : SynthAlt)
    (h : alt ∈ parseAiAlternatives content) : alt.partNumber ≠ "" := by
  unfold parseAiAlternatives at h
  have h2 := List.take_subset 3 _ h
  obtain ⟨line, hline, hp⟩ := List.mem_filterMap.mp h2
  exact aiLineParse_partNumber_ne line alt hp

/-! ## Claims about the batch reply parser -/

/-- C5 counterexample: a reply line whose description field consists of
whitespace only matches the three-field pattern, and the produced entry has
an empty description after trimming, refuting the claim that every entry
has all three fields nonempty. -/
theorem c5_counterexample :
    parseAiAlternatives "1. ABC - - XYZ" =
      [{ partNumber := "ABC", description := "", manufacturer := "XYZ" }] ∧
    ({ partNumber := "ABC", description := "", manufacturer := "XYZ" } : SynthAlt).description
      = "" := by
  exact ⟨by decide, rfl⟩

/-- C5 amended: a parsed batch reply has at most three entries, every entry
has a nonempty part number (the description and the manufacturer can be
empty when the matched field text is whitespace only), and every line
failing the numbered three-field pattern is silently dropped: a reply with
two well-formed and two malformed lines yields exactly the two well-formed
entries. -/
theorem c5_amended_parse_properties :
    (∀ content : String, (parseAiAlternatives content).length ≤ 3 ∧
      ∀ alt ∈ parseAiAlternatives content, alt.partNumber ≠ "") ∧
    parseAiAlternatives c5TwoGoodTwoBad =
      [{ partNumber := "LM1117", description := "linear regulator", manufacturer := "onsemi" },
       { partNumber := "AZ1117", description := "ldo regulator", manufacturer := "Diodes" }] := by
  refine ⟨fun content => ⟨?_, fun alt h => parseAi_mem_partNumber content alt h⟩, by decide⟩
  unfold parseAiAlternatives
  exact List.length_take_le 3 _

/-- C5 amended witness at a concrete reply. -/
theorem c5_amended_witness :
    (parseAiAlternatives c5TwoGoodTwoBad).length ≤ 3 ∧
    ({ partNumber := "LM1117", description := "linear regulator",
       manufacturer := "onsemi" } : SynthAlt).partNumber ≠ "" :=
  ⟨(c5_amended_parse_properties.1 c5TwoGoodTwoBad).1,
   (c5_amended_parse_properties.1 c5TwoGoodTwoBad).2
     { partNumber := "LM1117", description := "linear regulator", manufacturer := "onsemi" }
     (by decide)⟩
